import Mathlib

/-!
Verification of the ring-topology membership core
(`crates/freenet2-node/src/ring.rs`): the `Location` coordinate type with
its wraparound distance metric, and the `Ring` connection table with its
admission, median-distance, enumeration and peer-selection primitives.

The `f64` payload of `Location` is modelled exactly by a rational number.
The `BTreeMap<Location, PeerKeyLocation>` connection table is modelled as
an association list whose keys are strictly increasing (the invariant a
`BTreeMap` maintains by construction).  A Rust expression that can panic
(the out-of-bounds index `conn_by_dist[idx]` in `median_distance_to`) is
modelled with `Option`, where `none` stands for the panic.
-/

/-- An abstract location on the 1D ring, represented by a real number on the
interval [0, 1].  Rust: `pub struct Location(f64);` — the floating-point
payload is modelled exactly as a rational. -/
structure Location where
  val : ℚ
deriving DecidableEq, Repr

/-- Rust: `pub(crate) type Distance = Location;` -/
abbrev Distance := Location

namespace Location

/-- Compute the distance between two locations.  Rust:
`let d = (self.0 - other.0).abs(); if d < 0.5 { Location(d) } else { Location(1.0 - d) }` -/
def distance (a other : Location) : Distance :=
  let d := |a.val - other.val|
  if d < 1/2 then ⟨d⟩ else ⟨1 - d⟩

/-- Rust `impl TryFrom<f64> for Location` with `type Error = ();`:
`if !(0.0..=1.0).contains(&value) { Err(()) } else { Ok(Location(value)) }` -/
def tryFrom (value : ℚ) : Except Unit Location :=
  if ¬(0 ≤ value ∧ value ≤ 1) then Except.error () else Except.ok ⟨value⟩

/-- Rust `impl PartialEq for Location`: `self.0 == other.0`. -/
def beq (a other : Location) : Bool := a.val == other.val

/-- Rust `impl Ord for Location`: `self.partial_cmp(other).expect(..)`, where
`PartialOrd` compares the payloads; total on the non-NaN values the
constructors produce. -/
def cmp (a other : Location) : Ordering :=
  if a.val < other.val then Ordering.lt
  else if a.val = other.val then Ordering.eq
  else Ordering.gt

/-- Rust `impl Hash for Location` hashes `self.0.to_bits()`.  In the exact
rational model every value has a unique representation, so the bit pattern
is modelled as a function determined by the value. -/
def toBits (l : Location) : ℚ := l.val

/-- The data fed by `Location`'s `Hash` impl to the hasher: its bit pattern. -/
def hashFeed (l : Location) : ℚ := l.toBits

end Location

/-- Modelled from the spec: `conn_manager::PeerKeyLocation` is not under
`src/`; §3 of the spec describes it as an opaque peer descriptor — the
identity of a peer plus its Location — an immutable value type copied,
never mutated, by the ring logic. -/
structure PeerKeyLocation where
  peer : ℕ
  location : Location
deriving DecidableEq, Repr

/-- Modelled from the spec: `conn_manager::ConnError` is not under `src/`;
§6 of the spec describes it as a lower-level transport/connection failure
type wrapped unchanged into this core's error taxonomy. -/
structure ConnError where
  code : ℕ
deriving DecidableEq, Repr

/-- Rust `pub(crate) enum RingProtoError`: exactly the two variants
`Join` and `ConnError(Box<conn_manager::ConnError>)`. -/
inductive RingProtoError where
  | join : RingProtoError
  | connError : ConnError → RingProtoError
deriving DecidableEq, Repr

namespace Freenet

/-- Rust `pub(crate) struct Ring`: the connection table
(`RwLock<BTreeMap<Location, PeerKeyLocation>>`, modelled as an association
list with strictly increasing keys — the `BTreeMap` ordering invariant) and
the two routing-policy thresholds. -/
structure Ring where
  connections_by_location : List (Location × PeerKeyLocation)
  rnd_if_htl_above : ℕ
  max_hops_to_live : ℕ
  sorted_keys : connections_by_location.Pairwise (fun a b => a.1.val < b.1.val)

namespace Ring

/-- Rust `const MIN_CONNECTIONS: usize = 10;` -/
def MIN_CONNECTIONS : ℕ := 10

/-- Rust `const MAX_CONNECTIONS: usize = 20;` -/
def MAX_CONNECTIONS : ℕ := 20

/-- Rust `pub const RAND_WALK_ABOVE_HTL: usize = 7;` -/
def RAND_WALK_ABOVE_HTL : ℕ := 7

/-- Rust `pub const MAX_HOPS_TO_LIVE: usize = 10;` -/
def MAX_HOPS_TO_LIVE : ℕ := 10

/-- Rust `Ring::new()`: empty table, default thresholds. -/
def new : Ring :=
  ⟨[], RAND_WALK_ABOVE_HTL, MAX_HOPS_TO_LIVE, List.Pairwise.nil⟩

/-- Rust `Ring::with_rnd_walk_above`. -/
def with_rnd_walk_above (r : Ring) (x : ℕ) : Ring :=
  { r with rnd_if_htl_above := x }

/-- Rust `Ring::with_max_hops`. -/
def with_max_hops (r : Ring) (x : ℕ) : Ring :=
  { r with max_hops_to_live := x }

/-- `self.connections_by_location.read().len()` -/
def len (r : Ring) : ℕ := r.connections_by_location.length

/-- `cbl.contains_key(location)`: `BTreeMap` key membership, decided by the
`Location` ordering, i.e. payload equality. -/
def contains_key (r : Ring) (location : Location) : Bool :=
  r.connections_by_location.any (fun kp => kp.1 = location)

/-- Rust `Ring::connections_by_distance`: iterate the table in ascending key
order and map each entry `(key, peer)` to `(key.distance(to), *peer)`. -/
def connections_by_distance (r : Ring) (toLoc : Location) :
    List (Distance × PeerKeyLocation) :=
  r.connections_by_location.map (fun kp => (kp.1.distance toLoc, kp.2))

/-- Rust `Ring::median_distance_to`: sort the `(distance, peer)` pairs by
their distance key, then index at `len / 2`.  The Rust indexing
`conn_by_dist[idx]` panics when out of bounds; the panic is modelled as
`none`. -/
def median_distance_to (r : Ring) (location : Location) : Option Distance :=
  let conn_by_dist :=
    (r.connections_by_distance location).insertionSort
      (fun a b => a.1.val ≤ b.1.val)
  let idx := r.len / 2
  (conn_by_dist[idx]?).map Prod.fst

/-- Rust `Ring::should_accept`.  Returns `none` exactly when the Rust code
would panic (it never does — see the safety theorem). -/
def should_accept (r : Ring) (my_location location : Location) : Option Bool :=
  if location = my_location ∨ r.contains_key location = true then
    some false
  else if r.len < MIN_CONNECTIONS then
    some true
  else if MAX_CONNECTIONS ≤ r.len then
    some false
  else
    (r.median_distance_to my_location).map
      (fun m => decide ((my_location.distance location).val < m.val))

/-- Rust `Ring::random_peer`: `connections_by_location.read().values().find(filter_fn).copied()` —
first match over the values in ascending key order. -/
def random_peer (r : Ring) (filter_fn : PeerKeyLocation → Bool) :
    Option PeerKeyLocation :=
  (r.connections_by_location.map Prod.snd).find? filter_fn

end Ring

end Freenet

open Freenet

/-- A table entry whose peer descriptor records the key it sits under. -/
def mkEntry (k : ℚ) (i : ℕ) : Location × PeerKeyLocation := (⟨k⟩, ⟨i, ⟨k⟩⟩)

/-- Three connections at keys 0.6, 0.7, 0.8: distances 0.1, 0.2, 0.3 to a
reference at 0.5. -/
def ringA : Ring :=
  ⟨[mkEntry (6/10) 1, mkEntry (7/10) 2, mkEntry (8/10) 3], 7, 10,
   by norm_num [List.pairwise_cons, mkEntry]⟩

/-- Four connections at keys 0.6, 0.7, 0.8, 0.9: distances 0.1, 0.2, 0.3, 0.4
to a reference at 0.5. -/
def ringB : Ring :=
  ⟨[mkEntry (6/10) 1, mkEntry (7/10) 2, mkEntry (8/10) 3, mkEntry (9/10) 4], 7, 10,
   by norm_num [List.pairwise_cons, mkEntry]⟩

/-- Three connections at keys 0.1, 0.4, 0.5: distances 0.4, 0.1, 0 to a
reference at 0.5 — enumeration order is not distance order. -/
def ringC : Ring :=
  ⟨[mkEntry (1/10) 1, mkEntry (4/10) 2, mkEntry (5/10) 3], 7, 10,
   by norm_num [List.pairwise_cons, mkEntry]⟩

/-- Ten connections at keys 0.01 .. 0.10, reaching `MIN_CONNECTIONS`. -/
def ringM : Ring :=
  ⟨[mkEntry (1/100) 1, mkEntry (2/100) 2, mkEntry (3/100) 3, mkEntry (4/100) 4,
    mkEntry (5/100) 5, mkEntry (6/100) 6, mkEntry (7/100) 7, mkEntry (8/100) 8,
    mkEntry (9/100) 9, mkEntry (10/100) 10], 7, 10,
   by norm_num [List.pairwise_cons, mkEntry]⟩

/-- C6: `TryFrom<f64> for Location` succeeds exactly on values in [0,1],
returning the value unclamped, and fails (the `Err` case, the taxonomy's
`InvalidLocation` failure) on every value outside; it is a total function,
so it never panics. -/
theorem c6_tryFrom_validates (v : ℚ) :
    (Location.tryFrom v = Except.ok ⟨v⟩ ↔ 0 ≤ v ∧ v ≤ 1)
  ∧ (Location.tryFrom v = Except.error () ↔ ¬(0 ≤ v ∧ v ≤ 1))
  ∧ (∀ l, Location.tryFrom v = Except.ok l → l.val = v) := by
  unfold Location.tryFrom
  by_cases h : 0 ≤ v ∧ v ≤ 1 <;> simp [h]

/-- C6 witness: 0.37 is accepted verbatim; -0.1 and 1.5 are rejected. -/
theorem c6_tryFrom_validates_witness :
    Location.tryFrom (37/100) = Except.ok ⟨37/100⟩
  ∧ Location.tryFrom (-1/10) = Except.error ()
  ∧ Location.tryFrom (15/10) = Except.error () :=
  ⟨(c6_tryFrom_validates (37/100)).1.mpr (by norm_num),
   (c6_tryFrom_validates (-1/10)).2.1.mpr (by norm_num),
   (c6_tryFrom_validates (15/10)).2.1.mpr (by norm_num)⟩

/-- C4: for locations with values in [0,1] the distance is |a-b| when that
is below 0.5 and 1-|a-b| otherwise; it lies in [0, 0.5], is symmetric, and
is 0 on the diagonal. -/
theorem c4_distance_metric (a b : Location)
    (ha0 : 0 ≤ a.val) (ha1 : a.val ≤ 1) (hb0 : 0 ≤ b.val) (hb1 : b.val ≤ 1) :
    (a.distance b =
      if |a.val - b.val| < 1/2 then ⟨|a.val - b.val|⟩ else ⟨1 - |a.val - b.val|⟩)
  ∧ 0 ≤ (a.distance b).val ∧ (a.distance b).val ≤ 1/2
  ∧ a.distance b = b.distance a
  ∧ a.distance a = ⟨0⟩ := by
  refine ⟨rfl, ?_, ?_, ?_, ?_⟩
  · simp only [Location.distance]
    split_ifs
    · exact abs_nonneg _
    · have hle : |a.val - b.val| ≤ 1 := by
        rw [abs_le]; constructor <;> linarith
      simp only []
      linarith
  · simp only [Location.distance]
    split_ifs with hlt
    · linarith
    · push_neg at hlt
      simp only []
      linarith
  · simp only [Location.distance, abs_sub_comm]
  · simp [Location.distance]

/-- C4 witness: the metric facts at the wraparound pair 0.05 and 0.95. -/
theorem c4_distance_metric_witness :
    ((Location.mk (5/100)).distance ⟨95/100⟩ =
      if |(5:ℚ)/100 - 95/100| < 1/2 then ⟨|(5:ℚ)/100 - 95/100|⟩
      else ⟨1 - |(5:ℚ)/100 - 95/100|⟩)
  ∧ 0 ≤ ((Location.mk (5/100)).distance ⟨95/100⟩).val
  ∧ ((Location.mk (5/100)).distance ⟨95/100⟩).val ≤ 1/2
  ∧ (Location.mk (5/100)).distance ⟨95/100⟩ = (Location.mk (95/100)).distance ⟨5/100⟩
  ∧ (Location.mk (5/100)).distance ⟨5/100⟩ = ⟨0⟩ :=
  c4_distance_metric ⟨5/100⟩ ⟨95/100⟩ (by norm_num) (by norm_num) (by norm_num) (by norm_num)

/-- C5 counterexample: the endpoints 0 and 1 are distinct locations with
values in [0,1] whose distance is 0, refuting "distance is zero only when
a == b". -/
theorem c5_distance_zero_counterexample :
    (0 ≤ (Location.mk 0).val ∧ (Location.mk 0).val ≤ 1)
  ∧ (0 ≤ (Location.mk 1).val ∧ (Location.mk 1).val ≤ 1)
  ∧ (Location.mk 0).distance ⟨1⟩ = ⟨0⟩
  ∧ Location.mk 0 ≠ ⟨1⟩ := by
  refine ⟨by norm_num, by norm_num, ?_, ?_⟩
  · norm_num [Location.distance, abs_eq_max_neg, max_def]
  · simp only [ne_eq, Location.mk.injEq]
    norm_num

/-- C5 amended: for values in [0,1], a distance of zero forces either equal
locations or the antipodal endpoint pair {0, 1} (the two representations of
the same point on the circle). -/
theorem c5_distance_zero_amended (a b : Location)
    (ha0 : 0 ≤ a.val) (ha1 : a.val ≤ 1) (hb0 : 0 ≤ b.val) (hb1 : b.val ≤ 1)
    (h : a.distance b = ⟨0⟩) :
    a = b ∨ (a.val = 0 ∧ b.val = 1) ∨ (a.val = 1 ∧ b.val = 0) := by
  simp only [Location.distance] at h
  split_ifs at h with hd
  · left
    have hv : |a.val - b.val| = 0 := congrArg Location.val h
    have : a.val = b.val := by
      have := abs_eq_zero.mp hv
      linarith
    cases a; cases b; simpa using this
  · have hv : 1 - |a.val - b.val| = 0 := congrArg Location.val h
    have habs : |a.val - b.val| = 1 := by linarith
    rcases (abs_eq (by norm_num : (0:ℚ) ≤ 1)).mp habs with h2 | h2
    · right; right
      constructor <;> linarith
    · right; left
      constructor <;> linarith

/-- C5 amended witness: instantiated at the endpoint pair. -/
theorem c5_distance_zero_amended_witness :
    Location.mk 0 = ⟨1⟩
  ∨ ((Location.mk 0).val = 0 ∧ (Location.mk (1:ℚ)).val = 1)
  ∨ ((Location.mk 0).val = 1 ∧ (Location.mk (1:ℚ)).val = 0) :=
  c5_distance_zero_amended ⟨0⟩ ⟨1⟩ (by norm_num) (by norm_num) (by norm_num) (by norm_num)
    (by norm_num [Location.distance, abs_eq_max_neg, max_def])

/-- C3 counterexample: on the empty table `median_distance_to` hits the
out-of-bounds index access (modelled `none`, a panic in Rust) instead of
returning an `EmptyRing` error. -/
theorem c3_empty_median_counterexample :
    Ring.new.median_distance_to ⟨1/2⟩ = none := rfl

/-- C3 amended: on a table with zero entries `median_distance_to` performs
the out-of-bounds index access (a panic), and the `RingProtoError` taxonomy
offers only the `Join` and `ConnError` variants — there is no `EmptyRing`
error to fail with. -/
theorem c3_empty_median_amended (r : Ring) (ref : Location) (h : r.len = 0) :
    r.median_distance_to ref = none
  ∧ ∀ e : RingProtoError,
      e = RingProtoError.join ∨ ∃ c, e = RingProtoError.connError c := by
  constructor
  · have hl : r.connections_by_location = [] := List.length_eq_zero.mp h
    simp [Ring.median_distance_to, Ring.connections_by_distance, hl]
  · intro e
    cases e with
    | join => exact Or.inl rfl
    | connError c => exact Or.inr ⟨c, rfl⟩

/-- C3 amended witness: the freshly constructed ring is empty and exhibits
the panic. -/
theorem c3_empty_median_amended_witness :
    Ring.new.len = 0
  ∧ (Ring.new.median_distance_to ⟨0⟩ = none
     ∧ ∀ e : RingProtoError,
         e = RingProtoError.join ∨ ∃ c, e = RingProtoError.connError c) :=
  ⟨rfl, c3_empty_median_amended Ring.new ⟨0⟩ rfl⟩

instance : IsTotal (Distance × PeerKeyLocation) (fun a b => a.1.val ≤ b.1.val) :=
  ⟨fun a b => le_total a.1.val b.1.val⟩

instance : IsTrans (Distance × PeerKeyLocation) (fun a b => a.1.val ≤ b.1.val) :=
  ⟨fun _ _ _ => le_trans⟩

/-- C2 counterexample: with neighbor distances [0.1, 0.2, 0.3] the median is
0.2, but with [0.1, 0.2, 0.3, 0.4] the code returns the element at index
4 / 2 = 2 of the sorted distances — 0.3, the upper median — refuting the
claimed lower-median value 0.2. -/
theorem c2_median_index_counterexample :
    ringA.median_distance_to ⟨1/2⟩ = some ⟨2/10⟩
  ∧ ringB.median_distance_to ⟨1/2⟩ = some ⟨3/10⟩
  ∧ Location.mk (3/10) ≠ ⟨2/10⟩ := by
  refine ⟨?_, ?_, ?_⟩
  · norm_num [Ring.median_distance_to, Ring.connections_by_distance, Location.distance,
      abs_eq_max_neg, max_def, Ring.len, List.insertionSort, List.orderedInsert,
      mkEntry, ringA]
  · norm_num [Ring.median_distance_to, Ring.connections_by_distance, Location.distance,
      abs_eq_max_neg, max_def, Ring.len, List.insertionSort, List.orderedInsert,
      mkEntry, ringB]
  · simp only [ne_eq, Location.mk.injEq]
    norm_num

/-- Helper: on a non-empty table, `median_distance_to` returns the first
component of the element at index ⌊n/2⌋ of the ascending-sorted pair
list. -/
theorem median_sorted_index_spec (r : Ring) (ref : Location) (h : 0 < r.len) :
    ∃ l : List (Distance × PeerKeyLocation),
      (r.connections_by_distance ref).Perm l ∧
      List.Sorted (fun a b => a.1.val ≤ b.1.val) l ∧
      ∃ dp : Distance × PeerKeyLocation,
        l[r.len / 2]? = some dp ∧ r.median_distance_to ref = some dp.1 := by
  classical
  set l := (r.connections_by_distance ref).insertionSort
    (fun a b => a.1.val ≤ b.1.val) with hl
  have hperm : (r.connections_by_distance ref).Perm l :=
    (List.perm_insertionSort _ _).symm
  have hsorted : List.Sorted (fun a b => a.1.val ≤ b.1.val) l :=
    List.sorted_insertionSort _ _
  have hlen : l.length = r.len := by
    rw [hl, List.length_insertionSort]
    simp [Ring.connections_by_distance, Ring.len]
  have hidx : r.len / 2 < l.length := by
    rw [hlen]
    exact Nat.div_lt_self h (by norm_num)
  refine ⟨l, hperm, hsorted, l[r.len / 2], List.getElem?_eq_getElem hidx, ?_⟩
  simp only [Ring.median_distance_to, ← hl, List.getElem?_eq_getElem hidx,
    Option.map_some]
  rfl

/-- Helper: a non-empty table always yields a median distance (the index
⌊n/2⌋ is in bounds). -/
theorem median_distance_to_isSome (r : Ring) (ref : Location) (h : 0 < r.len) :
    ∃ m, r.median_distance_to ref = some m := by
  obtain ⟨l, _, _, dp, _, hm⟩ := median_sorted_index_spec r ref h
  exact ⟨dp.1, hm⟩

/-- C2 amended: for every non-empty table, `median_distance_to` returns the
element at index ⌊n/2⌋ of the ascending-sorted list of distances to every
current connection — the upper median for even counts (0.2 for distances
[0.1, 0.2, 0.3]; 0.3, not 0.2, for [0.1, 0.2, 0.3, 0.4]). -/
theorem c2_median_index_amended (r : Ring) (ref : Location) (h : 0 < r.len) :
    ∃ l : List (Distance × PeerKeyLocation),
      (r.connections_by_distance ref).Perm l ∧
      List.Sorted (fun a b => a.1.val ≤ b.1.val) l ∧
      ∃ dp : Distance × PeerKeyLocation,
        l[r.len / 2]? = some dp ∧ r.median_distance_to ref = some dp.1 :=
  median_sorted_index_spec r ref h

/-- C2 amended witness: instantiated at the four-connection table. -/
theorem c2_median_index_amended_witness :
    0 < ringB.len
  ∧ ∃ l : List (Distance × PeerKeyLocation),
      (ringB.connections_by_distance ⟨1/2⟩).Perm l ∧
      List.Sorted (fun a b => a.1.val ≤ b.1.val) l ∧
      ∃ dp : Distance × PeerKeyLocation,
        l[ringB.len / 2]? = some dp ∧
        ringB.median_distance_to ⟨1/2⟩ = some dp.1 :=
  ⟨by decide, c2_median_index_amended ringB ⟨1/2⟩ (by decide)⟩

/-- C1: the four-step admission decision — reject self or duplicate
locations; below MIN_CONNECTIONS (10) accept unconditionally; at or above
MAX_CONNECTIONS (20) reject unconditionally; otherwise accept iff the
candidate is strictly closer than the median neighbor distance. -/
theorem c1_should_accept_decision (r : Ring) (my loc : Location) :
    ((loc = my ∨ r.contains_key loc = true) →
      r.should_accept my loc = some false)
  ∧ (¬(loc = my ∨ r.contains_key loc = true) →
      r.len < Ring.MIN_CONNECTIONS → r.should_accept my loc = some true)
  ∧ (¬(loc = my ∨ r.contains_key loc = true) →
      Ring.MAX_CONNECTIONS ≤ r.len → r.should_accept my loc = some false)
  ∧ (¬(loc = my ∨ r.contains_key loc = true) →
      Ring.MIN_CONNECTIONS ≤ r.len → r.len < Ring.MAX_CONNECTIONS →
      ∃ m, r.median_distance_to my = some m ∧
        r.should_accept my loc = some (decide ((my.distance loc).val < m.val))) := by
  refine ⟨?_, ?_, ?_, ?_⟩
  · intro h
    rw [Ring.should_accept, if_pos h]
  · intro h hlen
    rw [Ring.should_accept, if_neg h, if_pos hlen]
  · intro h hmax
    have hnlt : ¬ r.len < Ring.MIN_CONNECTIONS := by
      simp only [Ring.MIN_CONNECTIONS, Ring.MAX_CONNECTIONS] at *
      omega
    rw [Ring.should_accept, if_neg h, if_neg hnlt, if_pos hmax]
  · intro h hmin hmax
    have hpos : 0 < r.len := by
      simp only [Ring.MIN_CONNECTIONS] at hmin
      omega
    obtain ⟨m, hm⟩ := median_distance_to_isSome r my hpos
    refine ⟨m, hm, ?_⟩
    have hnlt : ¬ r.len < Ring.MIN_CONNECTIONS := Nat.not_lt.mpr hmin
    have hnge : ¬ Ring.MAX_CONNECTIONS ≤ r.len := Nat.not_le.mpr hmax
    rw [Ring.should_accept, if_neg h, if_neg hnlt, if_neg hnge, hm]
    rfl

/-- C1 witness: at the ten-connection table the median branch is taken and
the comparison against the median decides admission. -/
theorem c1_should_accept_decision_witness :
    ¬(Location.mk (2/10) = ⟨1/2⟩ ∨ ringM.contains_key ⟨2/10⟩ = true)
  ∧ Ring.MIN_CONNECTIONS ≤ ringM.len ∧ ringM.len < Ring.MAX_CONNECTIONS
  ∧ ∃ m, ringM.median_distance_to ⟨1/2⟩ = some m ∧
      ringM.should_accept ⟨1/2⟩ ⟨2/10⟩ =
        some (decide (((Location.mk (1/2)).distance ⟨2/10⟩).val < m.val)) :=
  ⟨by norm_num [Ring.contains_key, ringM, mkEntry, Location.mk.injEq],
   by decide, by decide,
   (c1_should_accept_decision ringM ⟨1/2⟩ ⟨2/10⟩).2.2.2
     (by norm_num [Ring.contains_key, ringM, mkEntry, Location.mk.injEq])
     (by decide) (by decide)⟩

/-- C10: `should_accept` is total — it reaches the median comparison only
with at least MIN_CONNECTIONS entries, where the median index ⌊n/2⌋ is in
bounds, so it never performs the out-of-bounds access and never panics,
even on an empty table. -/
theorem c10_should_accept_total (r : Ring) (my loc : Location) :
    (r.should_accept my loc).isSome = true
  ∧ (Ring.MIN_CONNECTIONS ≤ r.len → (r.median_distance_to my).isSome = true) := by
  constructor
  · rw [Ring.should_accept]
    split_ifs with h1 h2 h3
    · rfl
    · rfl
    · rfl
    · have hpos : 0 < r.len := by
        simp only [Ring.MIN_CONNECTIONS] at h2
        omega
      obtain ⟨m, hm⟩ := median_distance_to_isSome r my hpos
      rw [hm]
      rfl
  · intro hmin
    have hpos : 0 < r.len := by
      simp only [Ring.MIN_CONNECTIONS] at hmin
      omega
    obtain ⟨m, hm⟩ := median_distance_to_isSome r my hpos
    rw [hm]
    rfl

/-- C10 witness: the median call is in bounds at the ten-connection table,
and `should_accept` is defined on the empty table as well. -/
theorem c10_should_accept_total_witness :
    Ring.MIN_CONNECTIONS ≤ ringM.len
  ∧ (ringM.median_distance_to ⟨1/2⟩).isSome = true
  ∧ (Ring.new.should_accept ⟨1/2⟩ ⟨2/10⟩).isSome = true :=
  ⟨by decide,
   (c10_should_accept_total ringM ⟨1/2⟩ ⟨2/10⟩).2 (by decide),
   (c10_should_accept_total Ring.new ⟨1/2⟩ ⟨2/10⟩).1⟩

/-- C8: `random_peer` scans the table values in ascending-key order and
returns the first peer satisfying the predicate: `none` exactly when no
entry matches, and on a match the returned peer sits under the smallest key
among all matching entries. -/
theorem c8_random_peer_first_match (r : Ring) (f : PeerKeyLocation → Bool) :
    (r.random_peer f = none ↔ ∀ kp ∈ r.connections_by_location, f kp.2 = false)
  ∧ (∀ p, r.random_peer f = some p →
      ∃ k, (k, p) ∈ r.connections_by_location ∧ f p = true ∧
        ∀ kp ∈ r.connections_by_location, f kp.2 = true → k.val ≤ kp.1.val) := by
  constructor
  · rw [Ring.random_peer, List.find?_eq_none]
    constructor
    · intro h kp hmem
      have := h kp.2 (List.mem_map_of_mem _ hmem)
      simpa using this
    · intro h x hx
      obtain ⟨kp, hmem, rfl⟩ := List.mem_map.mp hx
      simp [h kp hmem]
  · intro p hp
    rw [Ring.random_peer] at hp
    obtain ⟨hfp, as, bs, hsplit, hall⟩ := List.find?_eq_some.mp hp
    obtain ⟨l1, l2, hl, hmap1, hmap2⟩ := List.map_eq_append_iff.mp hsplit
    obtain ⟨kp0, l2t, hl2, hkp0, hmap2t⟩ := List.map_eq_cons_iff.mp hmap2
    have hsorted := r.sorted_keys
    rw [hl, hl2] at hsorted
    have hrest := (List.pairwise_append.mp hsorted).2.1
    have hhead := (List.pairwise_cons.mp hrest).1
    refine ⟨kp0.1, ?_, hfp, ?_⟩
    · rw [hl, hl2, ← hkp0]
      exact List.mem_append_right _ (List.mem_cons_self _ _)
    · intro kp hmem hf
      rw [hl, hl2] at hmem
      rcases List.mem_append.mp hmem with hmem1 | hmem2
      · exfalso
        have : (!f kp.2) = true := hall kp.2 (hmap1 ▸ List.mem_map_of_mem _ hmem1)
        rw [hf] at this
        simp at this
      · rcases List.mem_cons.mp hmem2 with rfl | hmem2t
        · exact le_refl _
        · exact le_of_lt (hhead kp hmem2t)

/-- C8 witness: at a table whose entries under keys 0.4 and 0.5 match the
predicate (peer id not 1), the entry under the smaller key 0.4 is the one
returned. -/
theorem c8_random_peer_first_match_witness :
    ringC.random_peer (fun p => p.peer != 1) = some ⟨2, ⟨4/10⟩⟩
  ∧ ∃ k, (k, (⟨2, ⟨4/10⟩⟩ : PeerKeyLocation)) ∈ ringC.connections_by_location ∧
      (fun p : PeerKeyLocation => p.peer != 1) ⟨2, ⟨4/10⟩⟩ = true ∧
      ∀ kp ∈ ringC.connections_by_location,
        (fun p : PeerKeyLocation => p.peer != 1) kp.2 = true → k.val ≤ kp.1.val :=
  ⟨rfl,
   (c8_random_peer_first_match ringC (fun p => p.peer != 1)).2 ⟨2, ⟨4/10⟩⟩ rfl⟩

/-- C9: `connections_by_distance` yields exactly one `(distance, peer)` pair
per connection — the distance from the entry's key to the reference — in the
table's Location-ascending order, and (witnessed by the table with keys
0.1, 0.4, 0.5 and reference 0.5) the output is not sorted by distance. -/
theorem c9_connections_by_distance_order :
    (∀ (r : Ring) (ref : Location),
      (r.connections_by_distance ref).length = r.len ∧
      ∀ i (h1 : i < (r.connections_by_distance ref).length)
        (h2 : i < r.connections_by_location.length),
        (r.connections_by_distance ref).get ⟨i, h1⟩ =
          ((r.connections_by_location.get ⟨i, h2⟩).1.distance ref,
           (r.connections_by_location.get ⟨i, h2⟩).2))
  ∧ ¬ List.Sorted (fun a b : Distance × PeerKeyLocation => a.1.val ≤ b.1.val)
      (ringC.connections_by_distance ⟨1/2⟩) := by
  constructor
  · intro r ref
    constructor
    · simp [Ring.connections_by_distance, Ring.len]
    · intro i h1 h2
      simp [Ring.connections_by_distance]
  · have hval : ringC.connections_by_distance ⟨1/2⟩ =
        [(⟨4/10⟩, ⟨1, ⟨1/10⟩⟩), (⟨1/10⟩, ⟨2, ⟨4/10⟩⟩), (⟨0⟩, ⟨3, ⟨5/10⟩⟩)] := by
      norm_num [Ring.connections_by_distance, Location.distance, abs_eq_max_neg,
        max_def, ringC, mkEntry]
    rw [hval]
    intro hs
    have h01 := List.rel_of_sorted_cons hs (⟨1/10⟩, ⟨2, ⟨4/10⟩⟩) (by simp)
    norm_num at h01

/-- C9 witness: the pair list has one entry per connection of the concrete
table. -/
theorem c9_connections_by_distance_order_witness :
    (ringC.connections_by_distance ⟨1/2⟩).length = ringC.len :=
  (c9_connections_by_distance_order.1 ringC ⟨1/2⟩).1

/-- Helper: `cmp` returns `eq` exactly on payload equality. -/
theorem cmp_eq_iff (x y : Location) : x.cmp y = Ordering.eq ↔ x = y := by
  unfold Location.cmp
  split_ifs with h1 h2
  · simp
    exact fun h => absurd (congrArg Location.val h) (ne_of_lt h1)
  · simp
    cases x
    cases y
    simpa using h2
  · simp
    exact fun h => absurd (congrArg Location.val h) h2

/-- Helper: `cmp` returns `lt` exactly when the first payload is smaller. -/
theorem cmp_lt_iff (x y : Location) : x.cmp y = Ordering.lt ↔ x.val < y.val := by
  unfold Location.cmp
  split_ifs with h1 h2 <;> simp [h1]

/-- Helper: `cmp` returns `gt` exactly when the first payload is larger. -/
theorem cmp_gt_iff (x y : Location) : x.cmp y = Ordering.gt ↔ y.val < x.val := by
  unfold Location.cmp
  split_ifs with h1 h2
  · simp
    exact h1.le
  · simp [h2]
  · simp
    exact lt_of_le_of_ne (not_lt.mp h1) fun h => h2 h.symm

/-- C7: on locations produced by the validating constructor (hence never
NaN in the Rust code), `cmp` is a total order (eq agrees with equality, the
three outcomes are exhaustive, lt/gt are mutually opposite, lt is
transitive), `beq` is an equivalence relation, and the hash input — the
payload's bit pattern — is consistent with equality. -/
theorem c7_location_order_equiv_hash (a b c : Location)
    (ha : ∃ v, Location.tryFrom v = Except.ok a)
    (hb : ∃ v, Location.tryFrom v = Except.ok b)
    (hc : ∃ v, Location.tryFrom v = Except.ok c) :
    (a.cmp b = Ordering.eq ↔ a = b)
  ∧ (a.cmp b = Ordering.lt ∨ a.cmp b = Ordering.eq ∨ a.cmp b = Ordering.gt)
  ∧ (a.cmp b = Ordering.lt ↔ b.cmp a = Ordering.gt)
  ∧ (a.cmp b = Ordering.lt → b.cmp c = Ordering.lt → a.cmp c = Ordering.lt)
  ∧ a.beq a = true
  ∧ a.beq b = b.beq a
  ∧ (a.beq b = true → b.beq c = true → a.beq c = true)
  ∧ (a.beq b = true → a.hashFeed = b.hashFeed) := by
  refine ⟨cmp_eq_iff a b, ?_, ?_, ?_, ?_, ?_, ?_, ?_⟩
  · rcases lt_trichotomy a.val b.val with h | h | h
    · exact Or.inl ((cmp_lt_iff a b).mpr h)
    · refine Or.inr (Or.inl ((cmp_eq_iff a b).mpr ?_))
      cases a
      cases b
      simpa using h
    · exact Or.inr (Or.inr ((cmp_gt_iff a b).mpr h))
  · rw [cmp_lt_iff, cmp_gt_iff]
  · rw [cmp_lt_iff, cmp_lt_iff, cmp_lt_iff]
    exact lt_trans
  · simp [Location.beq]
  · by_cases h : a.val = b.val <;> simp [Location.beq, h, eq_comm]
  · simp only [Location.beq, beq_iff_eq]
    exact Eq.trans
  · simp only [Location.beq, beq_iff_eq, Location.hashFeed, Location.toBits]
    exact fun h => h

/-- C7 witness: instantiated at the constructor-produced locations 0, 0.5
and 1. -/
theorem c7_location_order_equiv_hash_witness :
    ((Location.mk 0).cmp ⟨1/2⟩ = Ordering.eq ↔ Location.mk 0 = ⟨1/2⟩)
  ∧ ((Location.mk 0).cmp ⟨1/2⟩ = Ordering.lt ∨
     (Location.mk 0).cmp ⟨1/2⟩ = Ordering.eq ∨
     (Location.mk 0).cmp ⟨1/2⟩ = Ordering.gt)
  ∧ ((Location.mk 0).cmp ⟨1/2⟩ = Ordering.lt ↔
     (Location.mk (1/2)).cmp ⟨0⟩ = Ordering.gt)
  ∧ ((Location.mk 0).cmp ⟨1/2⟩ = Ordering.lt →
     (Location.mk (1/2)).cmp ⟨1⟩ = Ordering.lt →
     (Location.mk 0).cmp ⟨1⟩ = Ordering.lt)
  ∧ (Location.mk 0).beq ⟨0⟩ = true
  ∧ (Location.mk 0).beq ⟨1/2⟩ = (Location.mk (1/2)).beq ⟨0⟩
  ∧ ((Location.mk 0).beq ⟨1/2⟩ = true → (Location.mk (1/2)).beq ⟨1⟩ = true →
     (Location.mk 0).beq ⟨1⟩ = true)
  ∧ ((Location.mk 0).beq ⟨1/2⟩ = true →
     (Location.mk 0).hashFeed = (Location.mk (1/2)).hashFeed) :=
  c7_location_order_equiv_hash ⟨0⟩ ⟨1/2⟩ ⟨1⟩
    ⟨0, by norm_num [Location.tryFrom]⟩
    ⟨1/2, by norm_num [Location.tryFrom]⟩
    ⟨1, by norm_num [Location.tryFrom]⟩
